import Mathlib

/-!
# Verification of the rice-search client watcher core

Shallow embedding of `src/client/src` (watch command, scanner, API client,
hashing, config loading) together with proofs of the specified properties.

Paths are modelled as lists of components (`FsPath`); path strings as
`List Char`; instants as natural numbers of milliseconds; byte contents as
`List Nat`.  External collaborators (the `ignore` matcher, the HTTP stack,
the SHA-256 primitive of the `sha2` crate, the `config` crate's source
builder) are passed in as explicit function parameters, so every theorem
quantifies over their behaviour.
-/

namespace RiceSearch

/-- A filesystem path, as its list of components (what Rust's
`Path::components()` iterates, for ordinary relative/absolute paths). -/
abbrev FsPath := List String

/-! ## Constants of `src/client/src/commands/watch.rs` -/

/-- `DEBOUNCE_DELAY: Duration = Duration::from_secs(3)`, in milliseconds. -/
def DEBOUNCE_DELAY : Nat := 3000

/-- The sweep task sleeps `Duration::from_millis(500)` between sweeps. -/
def SWEEP_TICK : Nat := 500

/-! ## Path-string normalization (watch.rs sweep task / scanner.rs process_file)

Both `watch.rs` (lines 96–102) and `scanner.rs` (lines 54–61) turn the
canonicalized absolute path string into the upload name by stripping a
leading `\\?\` (Windows extended-length prefix) and replacing every `\`
with `/`.  We embed the two steps over `List Char`. -/

/-- The four characters of the Rust literal `"\\\\?\\"`, i.e. `\\?\`. -/
def uncMarker : List Char := ['\\', '\\', '?', '\\']

/-- `if path_str.starts_with("\\\\?\\") { &path_str[4..] } else { &path_str }` -/
def stripUNC (s : List Char) : List Char :=
  if s.take 4 = uncMarker then s.drop 4 else s

/-- `clean_path.replace("\\", "/")` — for the single-character pattern this
is a character map. -/
def normalizeSlashes (s : List Char) : List Char :=
  s.map (fun c => if c = '\\' then '/' else c)

/-- The upload name computed from the canonicalized absolute path string
(`upload_name` in both watch.rs and scanner.rs). -/
def uploadNameOf (s : List Char) : List Char :=
  normalizeSlashes (stripUNC s)

/-! ## Relative-path computation of the watch event loop (watch.rs 121–128)

```rust
let cwd = std::env::current_dir().unwrap_or_default();
let relative_path = event_path.strip_prefix(&cwd)
    .or_else(|_| event_path.strip_prefix(root_path))
    .unwrap_or(&event_path);
```
`Path::strip_prefix` succeeds iff the prefix's components lead the path's
components, and then drops them. -/

/-- `Path::strip_prefix` on component lists. -/
def stripPrefixPath (pre p : FsPath) : Option FsPath :=
  if p.take pre.length = pre then some (p.drop pre.length) else none

/-- The path used for ignore matching in the watch event loop: strip the
current working directory first, fall back to the watch root, fall back to
the event path itself. -/
def relativePath (cwd root p : FsPath) : FsPath :=
  match stripPrefixPath cwd p with
  | some q => q
  | none =>
    match stripPrefixPath root p with
    | some q => q
    | none => p

/-! ## Event filtering and the pending table (watch.rs 110–151)

The `ignore` crate's compiled matcher is external; we model its verdict on
the (slash-normalized, relative) path abstractly as a function into the
crate's three-valued `Match` result.  The pending table
`HashMap<PathBuf, Instant>` is modelled as a map `FsPath → Option Nat`. -/

/-- `ignore::Match` (with its payload erased). -/
inductive IgnMatch where
  | ignore
  | whitelist
  | nomatch
deriving DecidableEq, Repr

/-- `event_path.components().any(|c| c.as_os_str() == ".git")` -/
def hasGitComponent (p : FsPath) : Bool :=
  p.any (fun c => c == ".git")

/-- `notify::EventKind`, folded to the four cases the spec names. -/
inductive EventKind where
  | created
  | modified
  | removed
  | other
deriving DecidableEq, Repr

/-- The body of `for event_path in event.paths` for a Create/Modify event:
skip non-files, skip paths with a `.git` component, skip paths the matcher
marks `Ignore` on their relative path, otherwise insert-or-overwrite the
path in the pending table with the arrival time `now`. -/
def processEventPath (isFile : FsPath → Bool) (matcher : FsPath → IgnMatch)
    (cwd root : FsPath) (tbl : FsPath → Option Nat) (p : FsPath) (now : Nat) :
    FsPath → Option Nat :=
  if !isFile p then tbl
  else if hasGitComponent p then tbl
  else
    match matcher (relativePath cwd root p) with
    | .ignore => tbl
    | _ => fun q => if q = p then some now else tbl q

/-- One `Ok(event)` iteration of the watch loop: Create/Modify events run
`processEventPath` over every path of the event; every other kind falls
into the `_ => ()` arm, which changes nothing and prints nothing.  The
second component is the list of log lines this handler emits (the Ok branch
of the loop contains no print for any kind). -/
def handleEvent (isFile : FsPath → Bool) (matcher : FsPath → IgnMatch)
    (cwd root : FsPath) (tbl : FsPath → Option Nat) (kind : EventKind)
    (paths : List FsPath) (now : Nat) : (FsPath → Option Nat) × List String :=
  match kind with
  | .created | .modified =>
    (paths.foldl (fun acc p => processEventPath isFile matcher cwd root acc p now) tbl, [])
  | _ => (tbl, [])

/-! ## The per-path debounce state machine (watch.rs 63–108, 140–144)

The pending table treats distinct paths independently: an event inserts
only its own path's entry, and the sweep decides each entry on its own
timestamp.  We therefore verify the temporal behaviour on the projection of
the table to one path: `none` = not pending, `some u` = pending with last
change at `u`.  A sweep at time `t` removes and emits the entry iff
`now.duration_since(last_change) >= DEBOUNCE_DELAY`, i.e. `t - u ≥ W`
(saturating subtraction, as `Instant::duration_since` saturates). -/

/-- An action visible to one path: an arriving qualifying event, or a tick
of the sweep task, each stamped with its time in milliseconds. -/
inductive DebounceAction where
  | event (t : Nat)
  | sweep (t : Nat)
deriving DecidableEq, Repr

/-- The time stamp of an action. -/
def DebounceAction.time : DebounceAction → Nat
  | .event t => t
  | .sweep t => t

/-- One step of the per-path debounce state.  Returns the new state and,
for a sweep that finds the entry ready, the emission time. -/
def debounceStep (st : Option Nat) (a : DebounceAction) : Option Nat × Option Nat :=
  match a with
  | .event t => (some t, none)
  | .sweep t =>
    match st with
    | some u => if DEBOUNCE_DELAY ≤ t - u then (none, some t) else (some u, none)
    | none => (none, none)

/-- Run a list of actions from a state, collecting emission times in order. -/
def runDebounce (st : Option Nat) : List DebounceAction → Option Nat × List Nat
  | [] => (st, [])
  | a :: as =>
    let s := debounceStep st a
    let r := runDebounce s.1 as
    (r.1, s.2.toList ++ r.2)

/-- The emission times of a run. -/
def debounceEmits (st : Option Nat) (as : List DebounceAction) : List Nat :=
  (runDebounce st as).2

/-- The event times of a trace, in order. -/
def eventTimes (as : List DebounceAction) : List Nat :=
  as.filterMap (fun a => match a with | .event t => some t | .sweep _ => none)

/-- The sweep times of a trace, in order. -/
def sweepTimes (as : List DebounceAction) : List Nat :=
  as.filterMap (fun a => match a with | .sweep t => some t | .event _ => none)

/-! ## Scanner (src/client/src/watcher/scanner.rs)

`Scanner::scan` drives an `ignore::WalkBuilder` walk with
`filter_entry(|entry| entry.file_name() != ".git")` and the gitignore /
`.riceignore` rules, and calls `process_file` on every file entry yielded;
`process_file` logs `[INDEXING]`, uploads, and logs `[OK]` or `[ERROR]`
according to the outcome, never propagating the error.  We model the
directory tree explicitly and the walker's compiled ignore verdict as an
abstract predicate `ign` on (component-list) paths; an ignored directory
prunes its whole subtree, and the upload outcome of each file comes from an
abstract oracle `up`. -/

/-- A directory tree. -/
inductive FileTree where
  | file (name : String)
  | dir (name : String) (children : List FileTree)

/-- The files the walk yields to `process_file`, with `pre` the path of the
enclosing directory: an entry named `.git` is dropped by `filter_entry`
(for a directory, together with its whole subtree, since its children are
never visited), and an entry the ignore rules mark ignored is likewise
skipped (for a directory, pruning the subtree). -/
def scanEmits (ign : FsPath → Bool) : FsPath → FileTree → List FsPath
  | pre, .file n =>
    if n == ".git" || ign (pre ++ [n]) then [] else [pre ++ [n]]
  | pre, .dir n cs =>
    if n == ".git" || ign (pre ++ [n]) then []
    else cs.attach.flatMap (fun c => scanEmits ign (pre ++ [n]) c.1)
termination_by _ t => sizeOf t
decreasing_by
  have h := List.sizeOf_lt_of_mem c.2
  simp only [FileTree.dir.sizeOf_spec]
  omega

/-- `Scanner::scan` with its per-file logging: the same walk, where each
processed file contributes the pair of its path and its upload outcome
(`true` = the `[OK]` line, `false` = the `[ERROR]` line).  `process_file`
returns `()` in both cases, so an outcome never influences the rest of the
walk. -/
def scanRun (ign : FsPath → Bool) (up : FsPath → Bool) :
    FsPath → FileTree → List (FsPath × Bool)
  | pre, .file n =>
    if n == ".git" || ign (pre ++ [n]) then [] else [(pre ++ [n], up (pre ++ [n]))]
  | pre, .dir n cs =>
    if n == ".git" || ign (pre ++ [n]) then []
    else cs.attach.flatMap (fun c => scanRun ign up (pre ++ [n]) c.1)
termination_by _ t => sizeOf t
decreasing_by
  have h := List.sizeOf_lt_of_mem c.2
  simp only [FileTree.dir.sizeOf_spec]
  omega

/-- The completion message of `Scanner::scan`: the walk ends with the one
fixed line `info!("Scan complete.")`, whatever the walk and the upload
outcomes were — the scan keeps no counters at all. -/
def scanFinalReport (_ign _up : FsPath → Bool) (_pre : FsPath) (_t : FileTree) :
    String :=
  "Scan complete."

/-! ## ApiClient (src/client/src/core/api.rs) -/

/-- `Path::file_name()` on a component list: the final component, provided
it is an ordinary name (for a path ending in `..`, or an empty path, Rust
returns `None`). -/
def fileNameOf (p : FsPath) : Option String :=
  match p.getLast? with
  | some n => if n = ".." || n = "" then none else some n
  | none => none

/-- `base_url.trim_end_matches('/')` from `ApiClient::new`. -/
def trimEndSlashes (s : List Char) : List Char :=
  (s.reverse.dropWhile (fun c => c == '/')).reverse

/-- The multipart form built by `index_file`: the `file` part (raw bytes,
with a filename) and the `org_id` text field. -/
structure MultipartForm where
  fileBytes : List Nat
  fileName : String
  orgId : String
deriving DecidableEq, Repr

/-- The POST request `index_file` sends. -/
structure HttpRequest where
  url : List Char
  form : MultipartForm
deriving DecidableEq, Repr

/-- An HTTP response: status code and body. -/
structure HttpResponse where
  status : Nat
  body : String
deriving DecidableEq, Repr

/-- `reqwest::StatusCode::is_success()`: 200 ≤ status ≤ 299. -/
def isSuccessStatus (st : Nat) : Bool :=
  200 ≤ st && st < 300

/-- The POST request `index_file` builds: the ingestion URL under the
trimmed base URL, and the multipart form with the `file` part (content
bytes, filename) and the `org_id` text field. -/
def ingestRequest (baseUrl : List Char) (content : List Nat)
    (filename orgId : String) : HttpRequest :=
  { url := trimEndSlashes baseUrl ++ "/api/v1/ingest/file".data
    form := { fileBytes := content, fileName := filename, orgId := orgId } }

/-- `ApiClient::index_file`, with its effects explicit: `readFile` is the
result of `tokio::fs::read(path)` (`none` = read error), `send` is the
transport (`none` = request error), `parse` is `resp.json::<Value>()`
(`none` = body is not JSON, the parsed value abstracted as a string).
Returns the request that was sent, if any, and the `Result`.  Mirrors
api.rs lines 31–58: read the content, name the `file` part after
`path.file_name()` with fallback `"unknown"`, POST the multipart form to
`{base_url}/api/v1/ingest/file`, bail on a non-2xx status, parse the JSON
body. -/
def index_file (baseUrl : List Char) (readFile : Option (List Nat))
    (send : HttpRequest → Option HttpResponse) (parse : String → Option String)
    (p : FsPath) (orgId : String) :
    Option HttpRequest × Except String String :=
  match readFile with
  | none => (none, .error "Failed to read file")
  | some content =>
    let req := ingestRequest baseUrl content ((fileNameOf p).getD "unknown") orgId
    match send req with
    | none => (some req, .error "request error")
    | some resp =>
      if isSuccessStatus resp.status then
        match parse resp.body with
        | some v => (some req, .ok v)
        | none => (some req, .error "invalid JSON body")
      else (some req, .error ("Server returned error: " ++ toString resp.status))

/-! ## Hashing (src/client/src/core/hashing.rs)

`compute_file_hash` opens the file and feeds it to a `Sha256` hasher
through a `[0; 8192]` buffer, then hex-encodes the digest.  The `sha2`
crate's hasher digests exactly the concatenation of all bytes passed to
`update`, so the hasher state is modelled as the accumulated byte list and
the digest primitive itself is an arbitrary function `digest`. -/

/-- The read buffer size `[0; 8192]`. -/
def HASH_BLOCK : Nat := 8192

/-- Lower-case hex digit, as produced by `hex::encode`. -/
def hexDigit (n : Nat) : Char :=
  if n < 10 then Char.ofNat (48 + n) else Char.ofNat (87 + n)

/-- `hex::encode` over a byte list. -/
def hexEncode (bs : List Nat) : List Char :=
  bs.flatMap (fun b => [hexDigit (b % 256 / 16), hexDigit (b % 16)])

/-- The `loop { let count = reader.read(&mut buffer)?; ... }` of
`compute_file_hash`: each iteration consumes the next block of at most
`HASH_BLOCK` bytes and appends it to the hasher's accumulated input; on a
zero-length read the loop breaks and the digest is taken. -/
def hashLoop (digest : List Nat → List Nat) (acc content : List Nat) : List Nat :=
  if content = [] then digest acc
  else hashLoop digest (acc ++ content.take HASH_BLOCK) (content.drop HASH_BLOCK)
termination_by content.length
decreasing_by
  rename_i h
  have hl : 0 < content.length := List.length_pos.mpr h
  simp only [List.length_drop, HASH_BLOCK]
  omega

/-- `compute_file_hash` on a readable file with the given content. -/
def compute_file_hash (digest : List Nat → List Nat) (content : List Nat) : List Char :=
  hexEncode (hashLoop digest [] content)

/-- Reference one-shot fingerprint: the hex encoding of the digest of the
file's full byte content. -/
def oneShotHash (digest : List Nat → List Nat) (content : List Nat) : List Char :=
  hexEncode (digest content)

/-! ## The hash-prefix log line of the sweep task (watch.rs 92–104)

```rust
let hash = crate::core::hashing::compute_file_hash(&abs_path)
    .unwrap_or_else(|_| "unknown".to_string());
...
println!("Indexing: {} (hash: {})", upload_name, &hash[..8]);
```
Rust's `&hash[..8]` is byte slicing and panics when the string is shorter
than 8 bytes.  We model the slice as `Option`: `none` is the panic. -/

/-- The fallback hash string of the sweep task. -/
def hashFallback : List Char := "unknown".data

/-- `&s[..8]` on an ASCII string: `some` prefix when in bounds, `none`
(panic) otherwise. -/
def sliceFirst8 (s : List Char) : Option (List Char) :=
  if 8 ≤ s.length then some (s.take 8) else none

/-- The hash string the sweep task logs, given the outcome of
`compute_file_hash` (`none` = error). -/
def sweepHashString (hashResult : Option (List Char)) : List Char :=
  hashResult.getD hashFallback

/-! ## Configuration loading (src/client/src/core/config.rs)

`load_config` layers an optional `config.toml` under `RICE_`-prefixed
environment variables, builds the layered sources, and deserializes; a
deserialization failure falls back to `AppConfig::default()`, while a
builder failure propagates via `?`.  The `config` crate is external: the
merged sources are modelled as key/value lists (`fileKVs = none` = file
missing) with the environment layered over the file, and a builder failure
as `buildOk = false`. -/

/-- `AppConfig`. -/
structure AppConfig where
  backend_url : String
  user_id : String
deriving DecidableEq, Repr

/-- `AppConfig::default()`. -/
def defaultAppConfig : AppConfig :=
  { backend_url := "http://localhost:8000", user_id := "default-user" }

/-- First value for a key in a key/value list. -/
def lookupKey (kvs : List (String × String)) (k : String) : Option String :=
  (kvs.find? (fun e => e.1 == k)).map (fun e => e.2)

/-- Merged lookup: the `Environment::with_prefix("RICE")` source is added
after the file source, so its values take precedence. -/
def mergedGet (fileKVs : Option (List (String × String)))
    (env : List (String × String)) (k : String) : Option String :=
  match lookupKey env k with
  | some v => some v
  | none => lookupKey (fileKVs.getD []) k

/-- `try_deserialize::<AppConfig>()`: both fields are required and have no
serde defaults, so deserialization succeeds iff both keys are present. -/
def tryDeserialize (get : String → Option String) : Option AppConfig :=
  match get "backend_url", get "user_id" with
  | some b, some u => some { backend_url := b, user_id := u }
  | _, _ => none

/-- `load_config`: propagate a builder error; otherwise deserialize the
merged sources, falling back to `AppConfig::default()` when
deserialization fails. -/
def load_config (buildOk : Bool) (fileKVs : Option (List (String × String)))
    (env : List (String × String)) : Except String AppConfig :=
  if !buildOk then .error "builder error"
  else
    match tryDeserialize (mergedGet fileKVs env) with
    | some c => .ok c
    | none => .ok defaultAppConfig

/-- A concrete trace for one path: the sweep ticks at 500 ms intervals,
three qualifying events at 600, 1600 and 2600 ms (gaps of 1000 ms, below
the 3000 ms window), and the sweeps continuing past
2600 + 3000 = 5600 ms. -/
def demoTrace : List DebounceAction :=
  [.sweep 500, .event 600, .sweep 1000, .sweep 1500, .event 1600,
   .sweep 2000, .sweep 2500, .event 2600, .sweep 3000, .sweep 3500,
   .sweep 4000, .sweep 4500, .sweep 5000, .sweep 5500, .sweep 6000,
   .sweep 6500]

/-!
## Theorems
-/

/-! ### Helper lemmas about the upload-name normalization -/

/-- No backslash survives `clean_path.replace("\\", "/")`. -/
theorem uploadNameOf_no_backslash (s : List Char) : '\\' ∉ uploadNameOf s := by
  intro hmem
  rcases List.mem_map.mp hmem with ⟨a, _, ha⟩
  by_cases h : a = '\\' <;> simp [h] at ha

/-- C4: for every input path string, with either separator style and with
or without the Windows extended-length marker, the upload name produced for
the Uploader (strip a leading `\\?\`, then replace every backslash with a
forward slash) contains no backslash and does not begin with `\\?\`. -/
theorem upload_path_normalized (s : List Char) :
    '\\' ∉ uploadNameOf s ∧ (uploadNameOf s).take 4 ≠ uncMarker := by
  refine ⟨uploadNameOf_no_backslash s, fun h => ?_⟩
  have hm : '\\' ∈ (uploadNameOf s).take 4 := by
    rw [h]; simp [uncMarker]
  exact uploadNameOf_no_backslash s (List.mem_of_mem_take hm)

/-! ### Hash streaming (C8) -/

/-- The streaming loop feeds exactly the whole content to the hasher. -/
theorem hashLoop_eq (digest : List Nat → List Nat) :
    ∀ (n : Nat) (content acc : List Nat), content.length ≤ n →
      hashLoop digest acc content = digest (acc ++ content) := by
  intro n
  induction n with
  | zero =>
    intro content acc h
    have hc : content = [] := List.eq_nil_of_length_eq_zero (Nat.le_zero.mp h)
    subst hc
    rw [hashLoop]
    simp
  | succ n ih =>
    intro content acc h
    by_cases hc : content = []
    · subst hc
      rw [hashLoop]
      simp
    · rw [hashLoop, if_neg hc]
      rw [ih (content.drop HASH_BLOCK) (acc ++ content.take HASH_BLOCK) ?_]
      · rw [List.append_assoc, List.take_append_drop]
      · have hl : 0 < content.length := List.length_pos.mpr hc
        simp only [List.length_drop, HASH_BLOCK]
        omega

/-- C8: for every readable file content and every digest primitive with the
`sha2` update-accumulates semantics, `compute_file_hash`, which streams the
content in blocks of at most 8192 bytes, returns the hex encoding of the
digest of the full byte content — the block-streamed computation equals the
reference one-shot hash. -/
theorem compute_file_hash_eq_oneShot (digest : List Nat → List Nat)
    (content : List Nat) :
    compute_file_hash digest content = oneShotHash digest content := by
  unfold compute_file_hash oneShotHash
  rw [hashLoop_eq digest content.length content [] le_rfl]
  rfl

/-! ### The hash-prefix slice (C9) -/

/-- C9 fails on the code: when `compute_file_hash` errors, the logged hash
string is the fallback `"unknown"`, whose length is 7, so the byte slice
`&hash[..8]` in the sweep task's log line is out of bounds and panics.
This theorem evaluates the embedded code at that failing input. -/
theorem hash_slice_panics_on_fallback :
    sweepHashString none = hashFallback ∧
    hashFallback.length = 7 ∧
    sliceFirst8 (sweepHashString none) = none := by
  refine ⟨rfl, rfl, ?_⟩
  simp [sliceFirst8, sweepHashString, hashFallback]

/-! ### Configuration loading (C10) -/

/-- C10 as stated fails: with the config file missing but the `RICE_`
environment source supplying both fields, `load_config` succeeds with the
environment-derived configuration, not the default one. -/
theorem load_config_env_overrides_default :
    load_config true none [("backend_url", "http://other:9"), ("user_id", "alice")]
      = .ok { backend_url := "http://other:9", user_id := "alice" } ∧
    ({ backend_url := "http://other:9", user_id := "alice" } : AppConfig)
      ≠ defaultAppConfig := by
  exact ⟨rfl, by decide⟩

/-- C10, amended: whenever building the layered sources succeeds,
`load_config` returns `Ok`: the deserialized configuration when the merged
file/environment sources deserialize, and the default configuration
(backend_url `http://localhost:8000`, user_id `default-user`) when they do
not — in particular whenever the file is absent and the environment does
not supply both fields.  An error is returned exactly when building the
sources fails. -/
theorem load_config_total (fileKVs : Option (List (String × String)))
    (env : List (String × String)) :
    (tryDeserialize (mergedGet fileKVs env) = none →
      load_config true fileKVs env = .ok defaultAppConfig) ∧
    (∀ c, tryDeserialize (mergedGet fileKVs env) = some c →
      load_config true fileKVs env = .ok c) ∧
    (∀ b : Bool, (∃ e, load_config b fileKVs env = .error e) ↔ b = false) := by
  refine ⟨fun h => by simp [load_config, h], fun c h => by simp [load_config, h], ?_⟩
  intro b
  cases b with
  | false => exact ⟨fun _ => rfl, fun _ => ⟨"builder error", rfl⟩⟩
  | true =>
    constructor
    · rintro ⟨e, he⟩
      rcases h : tryDeserialize (mergedGet fileKVs env) with _ | c <;>
        simp [load_config, h] at he
    · intro h
      exact absurd h (by simp)

/-- Witness for the amended C10: with no config file and an empty
environment, deserialization fails and the default configuration is
returned. -/
theorem load_config_total_witness :
    tryDeserialize (mergedGet none []) = none ∧
    load_config true none [] = .ok defaultAppConfig :=
  ⟨rfl, (load_config_total none []).1 rfl⟩

/-! ### Event-kind filtering (C5) -/

/-- C5 as stated fails: a Removed event falls into the `_ => ()` arm of the
event-loop match, which emits no log line at all — the handler's log output
is empty. -/
theorem removed_event_not_logged :
    (handleEvent (fun _ => true) (fun _ => IgnMatch.nomatch) [] []
        (fun _ => none) EventKind.removed [["a.txt"]] 0).2 = [] := by
  rfl

/-- C5, amended: only Created and Modified events can change the pending
table; a Removed (or Other) event is silently discarded — it is not logged,
never results in an upload, and never inserts into the pending table.  The
event handler logs nothing for any kind. -/
theorem event_kind_filtering (isFile : FsPath → Bool)
    (matcher : FsPath → IgnMatch) (cwd root : FsPath)
    (tbl : FsPath → Option Nat) (kind : EventKind) (paths : List FsPath)
    (now : Nat) :
    ((kind = .removed ∨ kind = .other) →
      handleEvent isFile matcher cwd root tbl kind paths now = (tbl, [])) ∧
    ((handleEvent isFile matcher cwd root tbl kind paths now).1 ≠ tbl →
      kind = .created ∨ kind = .modified) ∧
    (handleEvent isFile matcher cwd root tbl kind paths now).2 = [] := by
  cases kind with
  | created =>
    refine ⟨?_, fun _ => Or.inl rfl, rfl⟩
    rintro (h | h) <;> exact EventKind.noConfusion h
  | modified =>
    refine ⟨?_, fun _ => Or.inr rfl, rfl⟩
    rintro (h | h) <;> exact EventKind.noConfusion h
  | removed => exact ⟨fun _ => rfl, fun h => absurd rfl h, rfl⟩
  | other => exact ⟨fun _ => rfl, fun h => absurd rfl h, rfl⟩

/-- Witness for the amended C5: a concrete Removed event leaves a concrete
pending table untouched and logs nothing. -/
theorem event_kind_filtering_witness :
    handleEvent (fun _ => true) (fun _ => IgnMatch.nomatch) [] []
        (fun _ => some 7) EventKind.removed [["b.txt"]] 42
      = (fun _ => some 7, []) :=
  (event_kind_filtering (fun _ => true) (fun _ => IgnMatch.nomatch) [] []
      (fun _ => some 7) EventKind.removed [["b.txt"]] 42).1 (Or.inl rfl)

/-! ### Scanner resilience (C6) -/

/-- The logged run is the emitted file list, each file paired with its own
upload outcome. -/
theorem scanRun_eq (ign up : FsPath → Bool) (pre : FsPath) (t : FileTree) :
    scanRun ign up pre t = (scanEmits ign pre t).map (fun p => (p, up p)) := by
  induction pre, t using scanEmits.induct ign with
  | case1 pre n h => rw [scanRun, scanEmits]; simp [h]
  | case2 pre n h => rw [scanRun, scanEmits]; simp at h; simp [h]
  | case3 pre n cs h => rw [scanRun, scanEmits]; simp [h]
  | case4 pre n cs h ih =>
    rw [scanRun, scanEmits, if_neg h, if_neg h, List.map_flatMap]
    congr 1
    funext c
    exact ih c

/-- C6, amended: a per-file upload error is logged (`[ERROR]`, recorded as
the file's `false` outcome) and does not abort the traversal — the files
processed are exactly the non-ignored files of the tree, independent of the
upload outcomes — but the scan reports no counts when the traversal
finishes: its completion message is the fixed string `Scan complete.`. -/
theorem scan_resilient (ign up : FsPath → Bool) (pre : FsPath) (t : FileTree) :
    (scanRun ign up pre t).map Prod.fst = scanEmits ign pre t ∧
    (∀ up' : FsPath → Bool,
      (scanRun ign up pre t).map Prod.fst = (scanRun ign up' pre t).map Prod.fst) ∧
    (∀ p b, (p, b) ∈ scanRun ign up pre t → b = up p) ∧
    scanFinalReport ign up pre t = "Scan complete." := by
  have h1 : ∀ u : FsPath → Bool,
      (scanRun ign u pre t).map Prod.fst = scanEmits ign pre t := by
    intro u
    rw [scanRun_eq]
    simp [Function.comp_def]
  refine ⟨h1 up, fun u => (h1 up).trans (h1 u).symm, ?_, rfl⟩
  intro p b hmem
  rw [scanRun_eq] at hmem
  rcases List.mem_map.mp hmem with ⟨a, _, ha⟩
  cases ha
  rfl

/-- Witness for the amended C6: on a concrete tree whose single file fails
to upload, the file is still visited and its error logged. -/
theorem scan_resilient_witness :
    (scanRun (fun _ => false) (fun _ => false) []
        (FileTree.dir "r" [FileTree.file "a"])).map Prod.fst
      = scanEmits (fun _ => false) [] (FileTree.dir "r" [FileTree.file "a"]) ∧
    (false : Bool) = (fun _ => false : FsPath → Bool) ["r", "a"] :=
  ⟨(scan_resilient (fun _ => false) (fun _ => false) []
      (FileTree.dir "r" [FileTree.file "a"])).1,
   (scan_resilient (fun _ => false) (fun _ => false) []
      (FileTree.dir "r" [FileTree.file "a"])).2.2.1 ["r", "a"] false
      (by simp [scanRun])⟩

/-- C6 as stated fails: the completion report is the same for a one-file
tree whose only upload fails as for the same tree with the upload
succeeding, although the failure counts differ — so the report cannot carry
the (accepted, skipped, failed) counts. -/
theorem scan_report_carries_no_counts :
    ((scanRun (fun _ => false) (fun _ => false) []
        (FileTree.dir "r" [FileTree.file "a"])).filter (fun e => !e.2)).length = 1 ∧
    ((scanRun (fun _ => false) (fun _ => true) []
        (FileTree.dir "r" [FileTree.file "a"])).filter (fun e => !e.2)).length = 0 ∧
    scanFinalReport (fun _ => false) (fun _ => false) []
        (FileTree.dir "r" [FileTree.file "a"])
      = scanFinalReport (fun _ => false) (fun _ => true) []
        (FileTree.dir "r" [FileTree.file "a"]) := by
  refine ⟨?_, ?_, rfl⟩ <;> simp [scanRun]

/-! ### Ignore-before-pending (C2) -/

/-- Every file the scan walk yields is not ignored, and lies strictly below
the walk root through components none of which is `.git`. -/
theorem mem_scanEmits (ign : FsPath → Bool) (p : FsPath) :
    ∀ (pre : FsPath) (t : FileTree), p ∈ scanEmits ign pre t →
      ign p = false ∧
      ∃ rest, rest ≠ [] ∧ p = pre ++ rest ∧ hasGitComponent rest = false := by
  intro pre t
  induction pre, t using scanEmits.induct ign with
  | case1 pre n h =>
    intro hp
    rw [scanEmits, if_pos h] at hp
    cases hp
  | case2 pre n h =>
    intro hp
    rw [scanEmits, if_neg h] at hp
    simp only [List.mem_singleton] at hp
    subst hp
    simp only [Bool.or_eq_true, beq_iff_eq, not_or, Bool.not_eq_true] at h
    exact ⟨h.2, [n], by simp, rfl, by simp [hasGitComponent, h.1]⟩
  | case3 pre n cs h =>
    intro hp
    rw [scanEmits, if_pos h] at hp
    cases hp
  | case4 pre n cs h ih =>
    intro hp
    rw [scanEmits, if_neg h] at hp
    rcases List.mem_flatMap.mp hp with ⟨c, _, hpc⟩
    rcases ih c hpc with ⟨hign, rest, hne, heq, hgit⟩
    simp only [Bool.or_eq_true, beq_iff_eq, not_or, Bool.not_eq_true] at h
    refine ⟨hign, n :: rest, by simp, ?_, ?_⟩
    · rw [heq, List.append_assoc]
      rfl
    · simp [hasGitComponent, h.1]
      simpa [hasGitComponent] using hgit

/-- C2: for every raw event path, the `.git`-component rule and then the
compiled ignore ruleset are consulted before any insertion into the pending
table, so a path with a `.git` component or a path whose relative path the
matcher marks Ignore leaves the pending table exactly as it was (it never
enters it, is never debounced, never uploaded by the watcher); and the
Scanner's walk never yields such a path either, for every matcher and every
tree. -/
theorem ignored_never_tracked
    (isFile : FsPath → Bool) (matcher : FsPath → IgnMatch) (cwd root : FsPath)
    (tbl : FsPath → Option Nat) (p : FsPath) (now : Nat)
    (ign : FsPath → Bool) (pre : FsPath) (t : FileTree) (q : FsPath)
    (hw : hasGitComponent p = true ∨ matcher (relativePath cwd root p) = .ignore)
    (hs : hasGitComponent (q.drop pre.length) = true ∨ ign q = true) :
    processEventPath isFile matcher cwd root tbl p now = tbl ∧
    q ∉ scanEmits ign pre t := by
  constructor
  · unfold processEventPath
    rcases hw with h | h
    · cases hf : isFile p <;> simp [hf, h]
    · cases hf : isFile p <;> cases hg : hasGitComponent p <;> simp [hf, hg, h]
  · intro hq
    rcases mem_scanEmits ign q pre t hq with ⟨hign, rest, _, heq, hgit⟩
    rcases hs with h | h
    · subst heq
      rw [List.drop_left] at h
      rw [hgit] at h
      cases h
    · rw [hign] at h
      cases h

/-- Witness for C2: a concrete path under `.git` leaves a concrete pending
table unchanged, and a concrete ignored file is absent from a concrete
scan. -/
theorem ignored_never_tracked_witness :
    processEventPath (fun _ => true) (fun _ => IgnMatch.nomatch) [] []
        (fun _ => none) [".git", "x"] 0 = (fun _ => none) ∧
    (["r", "x.log"] : FsPath) ∉ scanEmits (fun q => q == ["r", "x.log"]) []
      (FileTree.dir "r" [FileTree.file "x.log"]) :=
  ignored_never_tracked (fun _ => true) (fun _ => IgnMatch.nomatch) [] []
    (fun _ => none) [".git", "x"] 0 (fun q => q == ["r", "x.log"]) []
    (FileTree.dir "r" [FileTree.file "x.log"]) ["r", "x.log"]
    (Or.inl (by decide)) (Or.inr (by decide))

/-! ### Relative paths and upload paths (C3) -/

/-- C3 as stated fails on the code: with the watch root below the current
working directory, the path used for ignore matching is computed relative
to the working directory, not the root; and the upload path delivered to
the Uploader is the canonicalized absolute path, not a root-relative one. -/
theorem upload_path_not_root_anchored :
    relativePath ["/", "work"] ["/", "work", "proj"] ["/", "work", "proj", "file.txt"]
      = ["proj", "file.txt"] ∧
    (["proj", "file.txt"] : FsPath) ≠ ["file.txt"] ∧
    uploadNameOf "/work/proj/file.txt".data = "/work/proj/file.txt".data ∧
    "/work/proj/file.txt".data ≠ "file.txt".data := by
  exact ⟨by decide, by decide, rfl, by decide⟩

/-- C3, amended: the ignore-matching path is the event path with the
current working directory stripped when possible, else with the watch root
stripped, else the event path unchanged; and the upload path is the
normalized canonicalized absolute path string — an absolute path (leading
`/`, no extended-length marker) stays absolute. -/
theorem relative_path_behaviour (cwd root p q r : FsPath) (s : List Char) :
    (stripPrefixPath cwd p = some q → relativePath cwd root p = q) ∧
    (stripPrefixPath cwd p = none → stripPrefixPath root p = some r →
      relativePath cwd root p = r) ∧
    (stripPrefixPath cwd p = none → stripPrefixPath root p = none →
      relativePath cwd root p = p) ∧
    (s.head? = some '/' → s.take 4 ≠ uncMarker → (uploadNameOf s).head? = some '/') := by
  refine ⟨fun h => by simp [relativePath, h],
    fun h1 h2 => by simp [relativePath, h1, h2],
    fun h1 h2 => by simp [relativePath, h1, h2],
    fun hh hn => ?_⟩
  unfold uploadNameOf stripUNC normalizeSlashes
  rw [if_neg hn]
  cases s with
  | nil => cases hh
  | cons c cs =>
    simp only [List.head?_cons, Option.some.injEq] at hh
    subst hh
    simp

/-- Witness for the amended C3: concrete values exercising the
cwd-stripping branch and the absolute-path preservation. -/
theorem relative_path_behaviour_witness :
    relativePath ["/", "w"] ["/", "w", "p"] ["/", "w", "p", "a.txt"] = ["p", "a.txt"] ∧
    (uploadNameOf "/abs/p.txt".data).head? = some '/' := by
  have h := relative_path_behaviour ["/", "w"] ["/", "w", "p"] ["/", "w", "p", "a.txt"]
      ["p", "a.txt"] [] "/abs/p.txt".data
  exact ⟨h.1 (by decide), h.2.2.2 (by decide) (by decide)⟩

/-! ### Ingestion call contract (C7) -/

/-- C7: for a path with a basename (every readable regular file has one),
`index_file` issues a POST to `base_url` + `/api/v1/ingest/file` whose
multipart form carries the file's raw bytes with filename the basename and
the `org_id` scope field; and it returns Ok exactly when the file was
readable, the request succeeded with a 2xx status, and the response body
parsed as JSON — every non-2xx status yields an error. -/
theorem index_file_contract (baseUrl : List Char) (readFile : Option (List Nat))
    (send : HttpRequest → Option HttpResponse) (parse : String → Option String)
    (p : FsPath) (orgId b : String) (hb : fileNameOf p = some b) :
    (∀ content, readFile = some content →
      (index_file baseUrl readFile send parse p orgId).1
        = some (ingestRequest baseUrl content b orgId)) ∧
    ((∃ v, (index_file baseUrl readFile send parse p orgId).2 = .ok v) ↔
      ∃ content resp v, readFile = some content ∧
        send (ingestRequest baseUrl content b orgId) = some resp ∧
        isSuccessStatus resp.status = true ∧ parse resp.body = some v) ∧
    (∀ content resp, readFile = some content →
      send (ingestRequest baseUrl content b orgId) = some resp →
      isSuccessStatus resp.status = false →
      ∃ e, (index_file baseUrl readFile send parse p orgId).2 = .error e) := by
  cases readFile with
  | none =>
    refine ⟨?_, ?_, ?_⟩ <;> simp [index_file]
  | some content =>
    have h1 : (index_file baseUrl (some content) send parse p orgId).1
        = some (ingestRequest baseUrl content b orgId) := by
      rcases hsend : send (ingestRequest baseUrl content b orgId) with _ | resp
      · simp [index_file, hb, hsend]
      · rcases hparse : parse resp.body with _ | v <;>
          by_cases hst : isSuccessStatus resp.status <;>
            simp [index_file, hb, hsend, hparse, hst]
    have h2 : (∃ v, (index_file baseUrl (some content) send parse p orgId).2 = .ok v) ↔
        ∃ c resp v, (some content : Option (List Nat)) = some c ∧
          send (ingestRequest baseUrl c b orgId) = some resp ∧
          isSuccessStatus resp.status = true ∧ parse resp.body = some v := by
      rcases hsend : send (ingestRequest baseUrl content b orgId) with _ | resp
      · simp [index_file, hb, hsend]
      · rcases hparse : parse resp.body with _ | v <;>
          by_cases hst : isSuccessStatus resp.status <;>
            simp [index_file, hb, hsend, hparse, hst]
    have h3 : ∀ resp, send (ingestRequest baseUrl content b orgId) = some resp →
        isSuccessStatus resp.status = false →
        ∃ e, (index_file baseUrl (some content) send parse p orgId).2 = .error e := by
      intro resp hsend hfail
      simp [index_file, hb, hsend, hfail]
    refine ⟨?_, h2, ?_⟩
    · intro c hc
      cases hc
      exact h1
    · intro c resp hc hsend hfail
      cases hc
      exact h3 resp hsend hfail

/-- Witness for C7: a concrete successful round trip through `index_file`,
with the issued request carrying the basename and the scope identifier. -/
theorem index_file_contract_witness :
    (index_file "http://h/".data (some [104, 105])
        (fun _ => some { status := 200, body := "k" }) (fun s => some s)
        ["a", "b.txt"] "org1").1
      = some (ingestRequest "http://h/".data [104, 105] "b.txt" "org1") ∧
    (∃ v, (index_file "http://h/".data (some [104, 105])
        (fun _ => some { status := 200, body := "k" }) (fun s => some s)
        ["a", "b.txt"] "org1").2 = .ok v) := by
  have h := index_file_contract "http://h/".data (some [104, 105])
      (fun _ => some { status := 200, body := "k" }) (fun s => some s)
      ["a", "b.txt"] "org1" "b.txt" (by decide)
  exact ⟨h.1 [104, 105] rfl,
    h.2.1.mpr ⟨[104, 105], { status := 200, body := "k" }, "k", rfl, rfl, rfl, rfl⟩⟩

/-! ### Debounce coalescing (C1) -/

/-- Unfolding: an event always (re)sets the pending entry and emits
nothing. -/
theorem debounceEmits_event (st : Option Nat) (t : Nat) (as : List DebounceAction) :
    debounceEmits st (.event t :: as) = debounceEmits (some t) as := rfl

/-- Unfolding: a sweep on an empty entry does nothing. -/
theorem debounceEmits_sweep_none (t : Nat) (as : List DebounceAction) :
    debounceEmits none (.sweep t :: as) = debounceEmits none as := rfl

/-- A sweep strictly inside the window leaves the entry pending and emits
nothing. -/
theorem debounceEmits_sweep_skip {u t : Nat} (h : ¬ DEBOUNCE_DELAY ≤ t - u)
    (as : List DebounceAction) :
    debounceEmits (some u) (.sweep t :: as) = debounceEmits (some u) as := by
  simp [debounceEmits, runDebounce, debounceStep, h]

/-- A sweep at or past the window boundary removes the entry and emits. -/
theorem debounceEmits_sweep_fire {u t : Nat} (h : DEBOUNCE_DELAY ≤ t - u)
    (as : List DebounceAction) :
    debounceEmits (some u) (.sweep t :: as) = t :: debounceEmits none as := by
  simp [debounceEmits, runDebounce, debounceStep, h]

/-- Unfolding lemmas for event/sweep times of a trace. -/
theorem eventTimes_event_cons (t : Nat) (as : List DebounceAction) :
    eventTimes (.event t :: as) = t :: eventTimes as := rfl

theorem eventTimes_sweep_cons (t : Nat) (as : List DebounceAction) :
    eventTimes (.sweep t :: as) = eventTimes as := rfl

theorem sweepTimes_event_cons (t : Nat) (as : List DebounceAction) :
    sweepTimes (.event t :: as) = sweepTimes as := rfl

theorem sweepTimes_sweep_cons (t : Nat) (as : List DebounceAction) :
    sweepTimes (.sweep t :: as) = t :: sweepTimes as := rfl

/-- The event times form a sublist of the action times. -/
theorem eventTimes_sublist (as : List DebounceAction) :
    (eventTimes as).Sublist (as.map DebounceAction.time) := by
  induction as with
  | nil => exact List.Sublist.refl _
  | cons a as ih =>
    cases a with
    | event t => exact List.Sublist.cons₂ t ih
    | sweep t => exact List.Sublist.cons t ih

/-- Each event time occurs among the action times. -/
theorem mem_time_of_mem_eventTimes {as : List DebounceAction} {t : Nat}
    (h : t ∈ eventTimes as) : t ∈ as.map DebounceAction.time :=
  (eventTimes_sublist as).subset h

/-- A nondecreasing chain bounds every later element by the head. -/
theorem chain_le_head {x : Nat} {l : List Nat}
    (h : List.Chain' (· ≤ ·) (x :: l)) : ∀ y ∈ l, x ≤ y := by
  have hp := List.chain'_iff_pairwise.mp h
  exact (List.pairwise_cons.mp hp).1

/-- A nondecreasing chain bounds its last element below by its head. -/
theorem head_le_of_getLast? {u v : Nat} {ts : List Nat}
    (hc : List.Chain' (· ≤ ·) (u :: ts)) (h : (u :: ts).getLast? = some v) :
    u ≤ v := by
  rcases List.mem_cons.mp (List.mem_of_getLast?_eq_some h) with he | he
  · exact Nat.le_of_eq he.symm
  · exact chain_le_head hc v he

/-- With no events in the trace, an empty entry never fires. -/
theorem debounceEmits_none_of_no_events :
    ∀ as : List DebounceAction, eventTimes as = [] → debounceEmits none as = [] := by
  intro as
  induction as with
  | nil => intro _; rfl
  | cons a as ih =>
    intro h
    cases a with
    | event t => cases h
    | sweep t =>
      rw [debounceEmits_sweep_none]
      exact ih h

/-- Core run lemma, pending phase: starting from a pending entry at `u`,
with the remaining event times gap-chained below the window and the action
times nondecreasing, the run emits exactly once, at the first sweep at or
after (last event time) + window. -/
theorem debounce_pending_run :
    ∀ (as : List DebounceAction) (u v s : Nat) (ts : List Nat),
      List.Chain' (· ≤ ·) (u :: as.map DebounceAction.time) →
      eventTimes as = ts →
      List.Chain' (fun a b => b < a + DEBOUNCE_DELAY) (u :: ts) →
      (u :: ts).getLast? = some v →
      (sweepTimes as).find? (fun x => decide (v + DEBOUNCE_DELAY ≤ x)) = some s →
      debounceEmits (some u) as = [s] := by
  intro as
  induction as with
  | nil =>
    intro u v s ts _ hts _ _ hfind
    rw [show sweepTimes [] = [] from rfl] at hfind
    cases hfind
  | cons a as ih =>
    intro u v s ts hmono hts hgap hlast hfind
    cases a with
    | event t =>
      rw [eventTimes_event_cons] at hts
      subst hts
      rw [sweepTimes_event_cons] at hfind
      rw [debounceEmits_event]
      simp only [List.map_cons, DebounceAction.time] at hmono
      rw [List.getLast?_cons_cons] at hlast
      exact ih t v s (eventTimes as) (List.chain'_cons.mp hmono).2 rfl
        (List.chain'_cons.mp hgap).2 hlast hfind
    | sweep t =>
      rw [eventTimes_sweep_cons] at hts
      rw [sweepTimes_sweep_cons] at hfind
      simp only [List.map_cons, DebounceAction.time] at hmono
      have hut : u ≤ t := (List.chain'_cons.mp hmono).1
      have hmono' : List.Chain' (· ≤ ·) (u :: as.map DebounceAction.time) :=
        hmono.sublist (List.Sublist.cons₂ u (List.Sublist.cons t (List.Sublist.refl _)))
      cases ts with
      | nil =>
        have hv : u = v := by
          rw [List.getLast?_singleton] at hlast
          exact Option.some.inj hlast
        subst hv
        by_cases hc : DEBOUNCE_DELAY ≤ t - u
        · rw [debounceEmits_sweep_fire hc as]
          have hpred : u + DEBOUNCE_DELAY ≤ t := by omega
          rw [List.find?_cons_of_pos (p := fun x => decide (u + DEBOUNCE_DELAY ≤ x))
            (sweepTimes as) (decide_eq_true hpred)] at hfind
          rw [debounceEmits_none_of_no_events as hts]
          rw [Option.some.inj hfind]
        · rw [debounceEmits_sweep_skip hc as]
          have hpred : ¬ (u + DEBOUNCE_DELAY ≤ t) := by omega
          rw [List.find?_cons_of_neg (p := fun x => decide (u + DEBOUNCE_DELAY ≤ x))
            (sweepTimes as) (by simpa using hpred)] at hfind
          exact ih u u s [] hmono' hts hgap (List.getLast?_singleton u) hfind
      | cons t1 ts' =>
        have ht1 : t1 ∈ as.map DebounceAction.time :=
          mem_time_of_mem_eventTimes (hts ▸ List.mem_cons_self t1 ts')
        have htt1 : t ≤ t1 := chain_le_head (List.chain'_cons.mp hmono).2 t1 ht1
        have hgap1 : t1 < u + DEBOUNCE_DELAY := (List.chain'_cons.mp hgap).1
        have hc : ¬ DEBOUNCE_DELAY ≤ t - u := by omega
        rw [debounceEmits_sweep_skip hc as]
        have hchain : List.Chain' (· ≤ ·) (u :: t1 :: ts') := by
          have hsub : (t1 :: ts').Sublist (as.map DebounceAction.time) :=
            hts ▸ eventTimes_sublist as
          exact hmono'.sublist (List.Sublist.cons₂ u hsub)
        have huv : u ≤ v := head_le_of_getLast? hchain hlast
        have hpred : ¬ (v + DEBOUNCE_DELAY ≤ t) := by omega
        rw [List.find?_cons_of_neg (p := fun x => decide (v + DEBOUNCE_DELAY ≤ x))
          (sweepTimes as) (by simpa using hpred)] at hfind
        exact ih u v s (t1 :: ts') hmono' hts hgap hlast hfind

/-- Core run lemma, idle phase: from the empty entry, a trace whose event
times are gap-chained below the window emits exactly once, at the first
sweep at or after (last event time) + window. -/
theorem debounce_none_run :
    ∀ (as : List DebounceAction) (v s : Nat) (ts : List Nat),
      List.Chain' (· ≤ ·) (as.map DebounceAction.time) →
      eventTimes as = ts →
      List.Chain' (fun a b => b < a + DEBOUNCE_DELAY) ts →
      ts.getLast? = some v →
      (sweepTimes as).find? (fun x => decide (v + DEBOUNCE_DELAY ≤ x)) = some s →
      debounceEmits none as = [s] := by
  intro as
  induction as with
  | nil =>
    intro v s ts _ hts _ hlast _
    rw [← hts] at hlast
    cases hlast
  | cons a as ih =>
    intro v s ts hmono hts hgap hlast hfind
    cases a with
    | event t =>
      rw [eventTimes_event_cons] at hts
      subst hts
      rw [sweepTimes_event_cons] at hfind
      rw [debounceEmits_event]
      simp only [List.map_cons, DebounceAction.time] at hmono
      exact debounce_pending_run as t v s (eventTimes as) hmono rfl hgap hlast hfind
    | sweep t =>
      rw [eventTimes_sweep_cons] at hts
      rw [sweepTimes_sweep_cons] at hfind
      rw [debounceEmits_sweep_none]
      simp only [List.map_cons, DebounceAction.time] at hmono
      cases ts with
      | nil => cases hlast
      | cons t1 ts' =>
        have ht1 : t1 ∈ as.map DebounceAction.time :=
          mem_time_of_mem_eventTimes (hts ▸ List.mem_cons_self t1 ts')
        have htt1 : t ≤ t1 := chain_le_head hmono t1 ht1
        have hchain : List.Chain' (· ≤ ·) (t1 :: ts') :=
          hmono.sublist (List.Sublist.cons t (hts ▸ eventTimes_sublist as))
        have ht1v : t1 ≤ v := head_le_of_getLast? hchain hlast
        have hW : 0 < DEBOUNCE_DELAY := by decide
        have hpred : ¬ (v + DEBOUNCE_DELAY ≤ t) := by omega
        rw [List.find?_cons_of_neg (p := fun x => decide (v + DEBOUNCE_DELAY ≤ x))
          (sweepTimes as) (by simpa using hpred)] at hfind
        exact ih v s (t1 :: ts')
          (hmono.sublist (List.Sublist.cons t (List.Sublist.refl _))) hts hgap hlast hfind

/-- In a tick-spaced nondecreasing sweep schedule whose first tick is at or
before the bound `B`, the first tick at or after `B` lies within one tick
of `B`. -/
theorem find_within_tick :
    ∀ (l : List Nat) (B s x0 : Nat),
      List.Chain' (fun a b => b ≤ a + SWEEP_TICK) l →
      l.head? = some x0 → x0 ≤ B →
      l.find? (fun x => decide (B ≤ x)) = some s →
      s < B + SWEEP_TICK := by
  intro l
  induction l with
  | nil => intro B s x0 _ hh; cases hh
  | cons x rest ih =>
    intro B s x0 hchain hh hx0 hfind
    cases hh
    have htick : 0 < SWEEP_TICK := by decide
    by_cases hBx : B ≤ x
    · rw [List.find?_cons_of_pos (p := fun z => decide (B ≤ z)) rest
        (decide_eq_true hBx)] at hfind
      have hs : x = s := Option.some.inj hfind
      omega
    · rw [List.find?_cons_of_neg (p := fun z => decide (B ≤ z)) rest
        (by simpa using hBx)] at hfind
      cases rest with
      | nil => cases hfind
      | cons y rest' =>
        have hxy : y ≤ x + SWEEP_TICK := (List.chain'_cons.mp hchain).1
        by_cases hBy : B ≤ y
        · rw [List.find?_cons_of_pos (p := fun z => decide (B ≤ z)) rest'
            (decide_eq_true hBy)] at hfind
          have hs : y = s := Option.some.inj hfind
          omega
        · exact ih B s y (List.chain'_cons.mp hchain).2 rfl (by omega) hfind

/-- C1: debounce coalescing and reset.  For a path whose trace of
qualifying events and sweep ticks has nondecreasing times, whose event
times `ts` have inter-arrival gaps below the window `DEBOUNCE_DELAY`, and
whose sweeps are spaced at most `SWEEP_TICK` apart starting no later than
(last event `v`) + window: every qualifying event insert-or-overwrites the
path's pending entry with its arrival time (and a further event while
Pending defers eligibility past its own time + window); the whole run emits
exactly one Ready (removal plus one dispatch), at the first sweep `s` at or
after `v + DEBOUNCE_DELAY`, which lies within one sweep tick of it; no
emission happens earlier. -/
theorem debounce_coalescing
    (as : List DebounceAction) (ts : List Nat) (v s s0 : Nat)
    (hmono : List.Chain' (· ≤ ·) (as.map DebounceAction.time))
    (hts : eventTimes as = ts)
    (hgap : List.Chain' (fun a b => b < a + DEBOUNCE_DELAY) ts)
    (hlast : ts.getLast? = some v)
    (hfind : (sweepTimes as).find? (fun x => decide (v + DEBOUNCE_DELAY ≤ x)) = some s)
    (hspace : List.Chain' (fun a b => b ≤ a + SWEEP_TICK) (sweepTimes as))
    (hhead : (sweepTimes as).head? = some s0) (hs0 : s0 ≤ v + DEBOUNCE_DELAY) :
    debounceEmits none as = [s] ∧
    v + DEBOUNCE_DELAY ≤ s ∧
    s < v + DEBOUNCE_DELAY + SWEEP_TICK ∧
    (∀ (st : Option Nat) (T : Nat), debounceStep st (.event T) = (some T, none)) ∧
    (∀ T t' : Nat, t' < T + DEBOUNCE_DELAY →
      debounceStep (some T) (.sweep t') = (some T, none)) ∧
    (∀ (isFile : FsPath → Bool) (matcher : FsPath → IgnMatch)
       (cwd root p : FsPath) (tbl : FsPath → Option Nat) (now : Nat),
       isFile p = true → hasGitComponent p = false →
       matcher (relativePath cwd root p) ≠ .ignore →
       processEventPath isFile matcher cwd root tbl p now p = some now) := by
  refine ⟨debounce_none_run as v s ts hmono hts hgap hlast hfind,
    of_decide_eq_true
      (List.find?_some (p := fun x => decide (v + DEBOUNCE_DELAY ≤ x)) hfind),
    find_within_tick (sweepTimes as) (v + DEBOUNCE_DELAY) s s0 hspace hhead hs0 hfind,
    fun st T => rfl, fun T t' h => ?_, ?_⟩
  · have hW : 0 < DEBOUNCE_DELAY := by decide
    have hc : ¬ DEBOUNCE_DELAY ≤ t' - T := by omega
    simp [debounceStep, hc]
  · intro isFile matcher cwd root p tbl now hf hg hm
    unfold processEventPath
    rw [hf, hg]
    simp only [Bool.not_true, Bool.false_eq_true, if_false, if_pos rfl]
    rcases hmm : matcher (relativePath cwd root p) with _ | _ | _
    · exact absurd hmm hm
    · simp
    · simp

/-- Witness for C1: the concrete trace `demoTrace` (events at 600, 1600,
2600 ms, sweeps every 500 ms) yields exactly one emission, at 6000 ms —
at least 2600 + 3000 and within one tick of it. -/
theorem debounce_coalescing_witness :
    debounceEmits none demoTrace = [6000] ∧
    2600 + DEBOUNCE_DELAY ≤ 6000 ∧
    6000 < 2600 + DEBOUNCE_DELAY + SWEEP_TICK := by
  have h := debounce_coalescing demoTrace [600, 1600, 2600] 2600 6000 500
    (by simp [demoTrace, DebounceAction.time, List.chain'_cons])
    (by decide)
    (by simp [List.chain'_cons, DEBOUNCE_DELAY])
    (by decide) (by decide)
    (by simp [demoTrace, sweepTimes, List.chain'_cons, SWEEP_TICK])
    (by decide) (by decide)
  exact ⟨h.1, h.2.1, h.2.2.1⟩

end RiceSearch
